import Mathlib

/-!
Verification development for the serial-input bridge
(`src/extensions/serial-input-python/main.py`).

The Python source is shallowly embedded: byte strings become `List Nat`,
text becomes `List Char`, Python floats become `ℚ` (every numeric value the
program actually manipulates on the verified paths is exactly representable),
fallible code returns `Option`/`Except`, and the reader loop becomes an
explicit labelled transition relation on the `SerialState` record.
-/

namespace SerialBridge

/-! ### Text primitives

`str.strip()` / `str.split()` in Python treat the ASCII characters
space, `\t`, `\n`, `\r`, `\x0b`, `\x0c`, `\x1c`, `\x1d`, `\x1e`, `\x1f`
as whitespace (further whitespace code points are non-ASCII and can never
survive the `decode("ascii", errors="ignore")` step). -/

def isPySpace (c : Char) : Bool :=
  c = ' ' || c = '\t' || c = '\n' || c = '\r' || c = '\x0b' || c = '\x0c' ||
  c = '\x1c' || c = '\x1d' || c = '\x1e' || c = '\x1f'

/-- Model of `raw.decode("ascii", errors="ignore")`: bytes ≥ 0x80 are dropped,
bytes < 0x80 map to the identically-numbered character. -/
def asciiDecode (raw : List Nat) : List Char :=
  (raw.filter (fun b => b < 128)).map (fun b => Char.ofNat b)

/-- Python `str.strip()`: remove leading and trailing whitespace. -/
def strip (l : List Char) : List Char :=
  ((l.dropWhile isPySpace).reverse.dropWhile isPySpace).reverse

/-- One `foldr` step of whitespace tokenization: a whitespace character
closes the current token, any other character extends it. -/
def splitStep (c : Char) (acc : List (List Char)) : List (List Char) :=
  if isPySpace c then [] :: acc
  else
    match acc with
    | [] => [[c]]
    | t :: ts => (c :: t) :: ts

/-- Python `str.split()` (no arguments): split on runs of whitespace,
producing no empty tokens. -/
def splitWs (l : List Char) : List (List Char) :=
  (l.foldr splitStep []).filter (fun t => ¬t = [])

/-! ### Decimal digits (for Python `str(i)` keys and the key-value format) -/

def digitChar (d : Nat) : Char :=
  match d with
  | 0 => '0' | 1 => '1' | 2 => '2' | 3 => '3' | 4 => '4'
  | 5 => '5' | 6 => '6' | 7 => '7' | 8 => '8' | 9 => '9'
  | _ => '*'

def digitVal (c : Char) : Nat := c.toNat - 48

def isDigit (c : Char) : Bool := 48 ≤ c.toNat && c.toNat ≤ 57

/-- Decimal value of a most-significant-first digit list. -/
def natOfDigits (ds : List Nat) : Nat :=
  ds.foldl (fun a d => 10 * a + d) 0

/-- Most-significant-first decimal digits, with structural fuel
(`fuel ≥ n` always holds at the call sites, so the fuel never runs
out). -/
def natDigitsF : Nat → Nat → List Nat
  | 0, n => [n % 10]
  | fuel + 1, n => if n < 10 then [n] else natDigitsF fuel (n / 10) ++ [n % 10]

/-- Most-significant-first decimal digits of `n`. -/
def natDigits (n : Nat) : List Nat := natDigitsF n n

/-- Python `str(n)` for a natural number. -/
def natToString (n : Nat) : String :=
  String.mk ((natDigits n).map digitChar)

/-! ### Python `int(token, 16)`

Grammar accepted by CPython: optional surrounding whitespace, optional
sign, then either a `0x`/`0X`-prefixed digit sequence (a single `_`
allowed before each digit) or a bare digit sequence (a single `_`
allowed between digits). -/

def hexVal (c : Char) : Option Nat :=
  if 48 ≤ c.toNat && c.toNat ≤ 57 then some (c.toNat - 48)
  else if 97 ≤ c.toNat && c.toNat ≤ 102 then some (c.toNat - 87)
  else if 65 ≤ c.toNat && c.toNat ≤ 70 then some (c.toNat - 55)
  else none

def isHexDigit (c : Char) : Bool := (hexVal c).isSome

/-- Continue a hex-digit run after at least one digit has been read:
`(["_"] hexdigit)*`, with no trailing or doubled underscore. -/
def hexCont (acc : Nat) : List Char → Option Nat
  | [] => some acc
  | c :: cs =>
    if c = '_' then
      match cs with
      | [] => none
      | c2 :: cs2 =>
        match hexVal c2 with
        | none => none
        | some d => hexCont (16 * acc + d) cs2
    else
      match hexVal c with
      | none => none
      | some d => hexCont (16 * acc + d) cs

/-- Grammar `hexdigit (["_"] hexdigit)*` — an unprefixed hex-digit body. -/
def hexBody : List Char → Option Nat
  | [] => none
  | c :: cs =>
    match hexVal c with
    | none => none
    | some d => hexCont d cs

/-- Digit body with an optional `0x`/`0X` marker (after which one extra
leading underscore is allowed). -/
def hexUnsigned (l : List Char) : Option Nat :=
  match l with
  | c0 :: x :: rest =>
    if c0 = '0' && (x = 'x' || x = 'X') then
      match rest with
      | c2 :: rest2 => if c2 = '_' then hexBody rest2 else hexBody rest
      | [] => hexBody []
    else hexBody l
  | _ => hexBody l

/-- Python `int(s, 16)`: optional surrounding whitespace, optional
sign, hex digit body. -/
def pyIntBase16 (s : List Char) : Option Int :=
  match strip s with
  | [] => Option.none
  | c :: r =>
    if c = '+' then (hexUnsigned r).map (fun n => (n : Int))
    else if c = '-' then (hexUnsigned r).map (fun n => -(n : Int))
    else (hexUnsigned (c :: r)).map (fun n => (n : Int))

/-! ### `parse_pm100_line` (src/extensions/serial-input-python/main.py, 79-121) -/

/-- Body of the per-token branch of the parse loop (main.py 107-119):
strip, reject tokens shorter than 4 characters, truncate longer tokens
to their trailing 4 characters, then `int(token, 16)`. -/
def parseToken (p : List Char) : Option Int :=
  let token := strip p
  if token.length < 4 then none
  else
    let token2 := if token.length > 4 then token.drop (token.length - 4) else token
    pyIntBase16 token2

/-- The parse loop over all tokens: any failing token invalidates the
whole line (main.py 106-119). -/
def parseWords : List (List Char) → Option (List Int)
  | [] => some []
  | p :: ps =>
    match parseToken p with
    | none => none
    | some w =>
      match parseWords ps with
      | none => none
      | some ws => some (w :: ws)

/-- The `parts[i:i+4]` grouping used by the single-character fallback
(main.py 104); a final group of fewer than 4 elements is kept as-is,
matching the Python slice behaviour. -/
def chunk4 {α : Type} : List α → List (List α)
  | [] => []
  | a :: b :: c :: d :: rest => [a, b, c, d] :: chunk4 rest
  | [a] => [[a]]
  | [a, b] => [[a, b]]
  | [a, b, c] => [[a, b, c]]

/-- Tokenization and word-extraction pipeline of `parse_pm100_line`
(main.py 90-119), returning the decoded word list. -/
def parse_pm100_words (raw : List Nat) : Option (List Int) :=
  let text := strip (asciiDecode raw)
  if text = [] then none
  else
    let parts := splitWs text
    if parts = [] then none
    else
      if parts.all (fun p => p.length = 1) then
        if parts.length % 4 ≠ 0 then none
        else parseWords ((chunk4 parts).map List.flatten)
      else parseWords parts

/-- Model of `{str(i): w for i, w in enumerate(words)}` starting at index `i`. -/
def valuesFrom (i : Nat) : List Int → List (String × Int)
  | [] => []
  | w :: ws => (natToString i, w) :: valuesFrom (i + 1) ws

/-- The `"values"` dictionary of the decoded sample (main.py 121),
as an insertion-ordered association list. -/
def valuesMap (ws : List Int) : List (String × Int) :=
  valuesFrom 0 ws

/-- Full decoder `parse_pm100_line`, `none` meaning "unparseable". -/
def parse_pm100_line (raw : List Nat) : Option (List (String × Int)) :=
  (parse_pm100_words raw).map valuesMap

/-- Bytes of an ASCII literal, for concrete test lines. -/
def strBytes (s : String) : List Nat :=
  s.data.map Char.toNat

/-! ### Key-value line format

Modelled from the spec: the key-value textual form
`"<id><sep><value>"` with `<sep>` one of `:`/`,` is described in §4.1 of
the spec as the first decoder format of the bridge, but the edition of
the decoder shipped under `src/` contains only the hex-word format
(`parse_pm100_line`), so this decoder is reconstructed from the spec's
words: the first occurrence of a separator splits the line into exactly
two parts, and the second part must parse as a (decimal) floating-point
number.  Numeric values are modelled as exact sign/digit-list
representations (`FloatRep`), whose rational value `fval` stands for the
floating-point value. -/

/-- Exact decimal representation of a parsed floating-point literal:
sign, integer-part digits, fractional-part digits. -/
structure FloatRep where
  neg : Bool
  ip : List Nat
  fp : List Nat
  deriving DecidableEq, Repr

/-- Rational value denoted by a `FloatRep`. -/
def fracOfDigits (ds : List Nat) : ℚ :=
  ds.foldr (fun d x => ((d : ℚ) + x) / 10) 0

def fval (r : FloatRep) : ℚ :=
  (if r.neg then (-1 : ℚ) else 1) * ((natOfDigits r.ip : ℚ) + fracOfDigits r.fp)

/-- Optional leading sign of a numeric literal. -/
def parseSign (l : List Char) : Bool × List Char :=
  match l with
  | [] => (false, [])
  | c :: r =>
    if c = '-' then (true, r)
    else if c = '+' then (false, r)
    else (false, l)

/-- Modelled from the spec: parse a decimal floating-point literal
`[+-]? (digits [. digits?] | . digits)`. -/
def parseFloat (l : List Char) : Option FloatRep :=
  let s := parseSign l
  let ip := s.2.takeWhile isDigit
  let rest := s.2.dropWhile isDigit
  match rest with
  | [] =>
    if ip = [] then none
    else some ⟨s.1, ip.map digitVal, []⟩
  | '.' :: r =>
    let fp := r.takeWhile isDigit
    let rest2 := r.dropWhile isDigit
    if rest2 = [] then
      if ip = [] && fp = [] then none
      else some ⟨s.1, ip.map digitVal, fp.map digitVal⟩
    else none
  | _ => none

def isSep (c : Char) : Bool := c = ':' || c = ','

/-- Split at the first occurrence of a separator: `none` when the line
contains no separator at all. -/
def splitFirstSep : List Char → Option (List Char × List Char)
  | [] => none
  | c :: cs =>
    if isSep c then some ([], cs)
    else
      match splitFirstSep cs with
      | none => none
      | some (a, b) => some (c :: a, b)

/-- Modelled from the spec: the key-value Line Decoder (textual form).
Decodes `"<id><sep><value>"` into the Sample pair `{id, value}`. -/
def parse_kv_line (line : List Char) : Option (String × FloatRep) :=
  match splitFirstSep line with
  | none => none
  | some (idCs, valCs) =>
    match parseFloat valCs with
    | none => none
    | some r => some (String.mk idCs, r)

/-- Modelled from the spec: re-serialization of a decoded numeric value
back to its textual form (an empty integer part prints as `0`). -/
def floatRepr (r : FloatRep) : List Char :=
  (if r.neg then ['-'] else []) ++
  (if r.ip = [] then [digitChar 0] else r.ip.map digitChar) ++
  (if r.fp = [] then [] else '.' :: r.fp.map digitChar)

/-- Modelled from the spec: re-serialization of a decoded Sample pair. -/
def serializeKV (id : String) (r : FloatRep) : List Char :=
  id.data ++ ':' :: floatRepr r

/-! ### ConnectionState (`SerialState` dataclass, main.py 43-62) -/

inductive Status where
  | idle | connecting | connected | stopped | error
  deriving DecidableEq, Repr

def Status.label : Status → String
  | .idle => "idle"
  | .connecting => "connecting"
  | .connected => "connected"
  | .stopped => "stopped"
  | .error => "error"

/-- A decoded sample as stored in `last_value` / broadcast as
`serial:update`: the parsed values dict plus the caller-added
timestamp (main.py 154). -/
structure Sample where
  values : List (String × Int)
  timestamp : ℚ
  deriving DecidableEq, Repr

structure SerialState where
  port : String
  baudrate : Int
  status : Status
  last_error : Option String
  last_value : Option Sample
  last_seen : Option ℚ
  backoff_seconds : ℚ
  deriving DecidableEq, Repr

/-- Dataclass defaults (main.py 45-51) with no environment overrides:
`SERIAL_PORT` unset gives the empty port, `SERIAL_BAUDRATE` defaults
to 57600. -/
def initState : SerialState :=
  { port := ""
    baudrate := 57600
    status := .idle
    last_error := none
    last_value := none
    last_seen := none
    backoff_seconds := 1 }

/-- Model of `round(x, 3)` (Python banker's rounding, modelled on exact
rationals): round `x * 1000` to the nearest integer, ties to even. -/
def roundHalfEven (q : ℚ) : Int :=
  let f : Int := ⌊q⌋
  let r : ℚ := q - (f : ℚ)
  if r < 1 / 2 then f
  else if r > 1 / 2 then f + 1
  else if f % 2 = 0 then f else f + 1

def round3 (q : ℚ) : ℚ :=
  (roundHalfEven (q * 1000) : ℚ) / 1000

/-- Shape of `SerialState.to_health` (main.py 53-62). -/
structure Health where
  port : String
  baudrate : Int
  status : String
  lastError : Option String
  lastValue : Option Sample
  lastSeen : Option ℚ
  backoffSeconds : ℚ
  deriving DecidableEq, Repr

def SerialState.to_health (s : SerialState) : Health :=
  { port := s.port
    baudrate := s.baudrate
    status := s.status.label
    lastError := s.last_error
    lastValue := s.last_value
    lastSeen := s.last_seen
    backoffSeconds := round3 s.backoff_seconds }

/-! ### Python values for command payloads -/

inductive PyVal where
  | none
  | bool (b : Bool)
  | int (n : Int)
  | float (q : ℚ)
  | str (s : String)
  | list (xs : List PyVal)
  | dict (kvs : List (String × PyVal))

/-- Python truthiness. -/
def pyTruthy : PyVal → Bool
  | .none => false
  | .bool b => b
  | .int n => if n = 0 then false else true
  | .float q => if q = 0 then false else true
  | .str s => if s = "" then false else true
  | .list xs => if xs.isEmpty then false else true
  | .dict kvs => if kvs.isEmpty then false else true

/-- Python `==` between a value and a `str` literal (no `__eq__`
overloading involved). -/
def pyEqStr (v : PyVal) (s : String) : Bool :=
  match v with
  | .str t => t = s
  | _ => false

def PyVal.isDict : PyVal → Bool
  | .dict _ => true
  | _ => false

/-- Model of `data.get(k)`: `None` when absent (also when `data` has unique keys,
the first binding wins, as in a Python dict). -/
def pyGet (v : PyVal) (k : String) : PyVal :=
  match v with
  | .dict kvs => ((kvs.find? (fun p => p.1 = k)).map (fun p => p.2)).getD .none
  | _ => .none

/-- Model of `message[k]` for the envelope extraction: `none` models the raised
`KeyError`/`TypeError` that the bare `except:` in `handle_message`
swallows. -/
def pyIndex (v : PyVal) (k : String) : Option PyVal :=
  match v with
  | .dict kvs => (kvs.find? (fun p => p.1 = k)).map (fun p => p.2)
  | _ => Option.none

/-! ### Command Dispatcher (`handle_command`, main.py 233-260)

The built-in coercions `str(...)` and `int(...)` are taken as
parameters (`strFn`, `intFn`): the dispatcher's control flow never
depends on the coerced values, and `int(...)` may raise — modelled by
`intFn` returning `Except`.  All dispatcher theorems below hold for
every choice of coercion. -/

/-- Response dict `{"ok": ..., "status": ...}`. -/
structure Resp where
  ok : Bool
  status : Health
  deriving DecidableEq, Repr

/-- Result of one `handle_command` call: the returned response or the
raised exception's message, the post-call state, and the side effects
(`_stop_event.set()`, `ensure_thread_running`). -/
structure HCResult where
  outcome : Except String Resp
  state : SerialState
  stopSignal : Bool
  ensureThread : Bool
  deriving Repr

def handle_command (strFn : PyVal → String) (intFn : PyVal → Except String Int)
    (event : PyVal) (data : PyVal) (s : SerialState) : HCResult :=
  if pyEqStr event "start" then
    if pyTruthy data && data.isDict then
      let s1 := if pyTruthy (pyGet data "port")
                then { s with port := strFn (pyGet data "port") } else s
      if pyTruthy (pyGet data "baudrate") then
        match intFn (pyGet data "baudrate") with
        | .error e => ⟨.error e, s1, false, false⟩
        | .ok n =>
          let s2 := { s1 with baudrate := n }
          ⟨.ok ⟨true, s2.to_health⟩, s2, false, true⟩
      else ⟨.ok ⟨true, s1.to_health⟩, s1, false, true⟩
    else ⟨.ok ⟨true, s.to_health⟩, s, false, true⟩
  else if pyEqStr event "stop" then
    ⟨.ok ⟨true, s.to_health⟩, s, true, false⟩
  else if pyEqStr event "configure" then
    if ¬data.isDict then
      ⟨.error "configure payload must be an object", s, false, false⟩
    else
      let portVal := if pyTruthy (pyGet data "port") then pyGet data "port"
                     else .str s.port
      let s1 := { s with port := strFn portVal }
      if pyTruthy (pyGet data "baudrate") then
        match intFn (pyGet data "baudrate") with
        | .error e => ⟨.error e, s1, false, false⟩
        | .ok n =>
          let s2 := { s1 with baudrate := n }
          ⟨.ok ⟨true, s2.to_health⟩, s2, false, false⟩
      else ⟨.ok ⟨true, s1.to_health⟩, s1, false, false⟩
  else if pyEqStr event "health" then
    ⟨.ok ⟨true, s.to_health⟩, s, false, false⟩
  else
    ⟨.ok ⟨false, s.to_health⟩, s, false, false⟩

/-! ### `handle_message` (main.py 262-274) -/

inductive HMOutcome where
  | silent
  | responded (r : Resp)
  | raised (e : String)
  deriving Repr

structure HMResult where
  outcome : HMOutcome
  state : SerialState
  stopSignal : Bool
  ensureThread : Bool
  deriving Repr

/-- Model of `handle_message`: `msg` is the result of `json.loads` (`none` =
`JSONDecodeError`, silently dropped).  The envelope extraction is
guarded by a bare `except:`, but the `handle_command` call itself is
*not* inside any `try:` — an exception raised there escapes, modelled
as the `.raised` outcome. -/
def handle_message (strFn : PyVal → String) (intFn : PyVal → Except String Int)
    (msg : Option PyVal) (s : SerialState) : HMResult :=
  match msg with
  | Option.none => ⟨.silent, s, false, false⟩
  | Option.some m =>
    match pyIndex m "event", pyIndex m "data" with
    | Option.some ev, Option.some d =>
      if pyTruthy ev then
        let r := handle_command strFn intFn ev d s
        match r.outcome with
        | .ok resp => ⟨.responded resp, r.state, r.stopSignal, r.ensureThread⟩
        | .error e => ⟨.raised e, r.state, r.stopSignal, r.ensureThread⟩
      else ⟨.silent, s, false, false⟩
    | _, _ => ⟨.silent, s, false, false⟩

/-- Default concrete coercions used to instantiate witnesses:
`str` is the identity on strings and `int` accepts ints. -/
def defaultStr : PyVal → String
  | .str s => s
  | _ => ""

def defaultInt : PyVal → Except String Int
  | .int n => .ok n
  | _ => .error "invalid literal for int"

/-! ### Reader Loop (`_reader_loop`, main.py 129-166)

Each constructor of `ReaderStep` is one basic block of the loop; the
label records the events broadcast during the block and the duration
slept (`none` = no sleep).  Timestamps, line contents and failure
messages are nondeterministic inputs. -/

inductive Event where
  | statusEv (h : Health)
  | updateEv (s : Sample)
  deriving DecidableEq, Repr

structure Label where
  events : List Event
  sleep : Option ℚ
  deriving DecidableEq, Repr

/-- Model of `_state.backoff_seconds = min(_state.backoff_seconds * 1.5, 30.0)`
(main.py 163); every value reachable from the 1.0 floor is exactly
representable as a binary double, so exact rationals model the float
arithmetic faithfully. -/
def backoffNext (b : ℚ) : ℚ :=
  min (b * (3 / 2)) 30

/-- Body of the inner read loop for one received line (main.py 148-157):
empty and unparseable lines change nothing and emit nothing; a decoded
line is stamped with the current time `t`, stored, and broadcast. -/
def readLineResult (s : SerialState) (t : ℚ) (raw : List Nat) :
    SerialState × List Event :=
  if raw = [] then (s, [])
  else
    match parse_pm100_line raw with
    | Option.none => (s, [])
    | Option.some vm =>
      let smp : Sample := ⟨vm, t⟩
      ({ s with last_value := Option.some smp, last_seen := Option.some t },
       [.updateEv smp])

/-- Post-state of the "no port configured" block (main.py 132-134). -/
def noPortPost (s : SerialState) : SerialState :=
  { s with status := .error, last_error := Option.some "No serial port configured" }

/-- Post-state of entering a connection attempt (main.py 140). -/
def connectingPost (s : SerialState) : SerialState :=
  { s with status := .connecting }

/-- Post-state of a successful open (main.py 143-145). -/
def connectOkPost (s : SerialState) : SerialState :=
  { s with status := .connected, last_error := Option.none, backoff_seconds := 1 }

/-- Post-state of the exception handler (main.py 159-163). -/
def failPost (s : SerialState) (msg : String) : SerialState :=
  { s with status := .error, last_error := Option.some msg,
           backoff_seconds := backoffNext s.backoff_seconds }

/-- State broadcast by the exception handler: the backoff update
happens only after the broadcast and the sleep (main.py 161-163). -/
def failBroadcastState (s : SerialState) (msg : String) : SerialState :=
  { s with status := .error, last_error := Option.some msg }

/-- Post-state of the loop exit (main.py 165). -/
def stoppedPost (s : SerialState) : SerialState :=
  { s with status := .stopped }

inductive ReaderStep : SerialState → Label → SerialState → Prop where
  /-- main.py 132-137: no port configured — fixed 1 s sleep, backoff
  untouched. -/
  | noPort (s : SerialState) (h : s.port = "") :
      ReaderStep s ⟨[.statusEv (noPortPost s).to_health], Option.some 1⟩ (noPortPost s)
  /-- main.py 140-141: entering the connection attempt. -/
  | connecting (s : SerialState) (h : ¬s.port = "") :
      ReaderStep s ⟨[.statusEv (connectingPost s).to_health], Option.none⟩ (connectingPost s)
  /-- main.py 142-146: open succeeded — clear the error, reset backoff
  to the floor. -/
  | connectOk (s : SerialState) (h : s.status = .connecting) :
      ReaderStep s ⟨[.statusEv (connectOkPost s).to_health], Option.none⟩ (connectOkPost s)
  /-- main.py 147-157: one iteration of the inner read loop. -/
  | readLine (s : SerialState) (t : ℚ) (raw : List Nat)
      (h : s.status = .connected) :
      ReaderStep s ⟨(readLineResult s t raw).2, Option.none⟩ (readLineResult s t raw).1
  /-- main.py 158-163: open failure or mid-stream failure — the status
  event is broadcast before the backoff update, the sleep uses the
  current backoff. -/
  | fail (s : SerialState) (msg : String)
      (h : s.status = .connecting ∨ s.status = .connected) :
      ReaderStep s
        ⟨[.statusEv (failBroadcastState s msg).to_health], Option.some s.backoff_seconds⟩
        (failPost s msg)
  /-- main.py 165-166: stop signal honoured at loop top. -/
  | stop (s : SerialState) :
      ReaderStep s ⟨[.statusEv (stoppedPost s).to_health], Option.none⟩ (stoppedPost s)

/-- Backoff value after `n` consecutive failures starting from the
floor. -/
def backoffSeq : Nat → ℚ
  | 0 => 1
  | n + 1 => backoffNext (backoffSeq n)

/-! ## Helper lemmas -/

lemma dropWhile_all_false {p : Char → Bool} :
    ∀ l : List Char, (∀ c ∈ l, p c = false) → l.dropWhile p = l := by
  intro l h
  cases l with
  | nil => rfl
  | cons c cs =>
    rw [List.dropWhile_cons]
    simp [h c (by simp)]

lemma strip_of_no_space (l : List Char) (h : ∀ c ∈ l, isPySpace c = false) :
    strip l = l := by
  unfold strip
  rw [dropWhile_all_false l h, dropWhile_all_false l.reverse
    (by intro c hc; exact h c (List.mem_reverse.mp hc)), List.reverse_reverse]

lemma splitStep_clean (c : Char) (acc : List (List Char))
    (hacc : ∀ t ∈ acc, ∀ d ∈ t, isPySpace d = false) :
    ∀ t ∈ splitStep c acc, ∀ d ∈ t, isPySpace d = false := by
  intro t ht d hd
  unfold splitStep at ht
  by_cases hc : isPySpace c = true
  · simp [hc] at ht
    rcases ht with h | h
    · subst h; simp at hd
    · exact hacc t h d hd
  · simp [hc] at ht
    cases acc with
    | nil =>
      simp at ht; subst ht; simp at hd; subst hd
      simpa using hc
    | cons a as =>
      simp at ht
      rcases ht with h | h
      · subst h
        simp at hd
        rcases hd with h2 | h2
        · subst h2; simpa using hc
        · exact hacc a (by simp) d h2
      · exact hacc t (by simp [h]) d hd

lemma splitWs_clean (l : List Char) :
    ∀ t ∈ splitWs l, ∀ c ∈ t, isPySpace c = false := by
  have main : ∀ t ∈ l.foldr splitStep [], ∀ c ∈ t, isPySpace c = false := by
    induction l with
    | nil => intro t ht; simp at ht
    | cons c cs ih =>
      simpa using splitStep_clean c (cs.foldr splitStep []) ih
  intro t ht
  exact main t (List.mem_of_mem_filter ht)

lemma splitWs_nil : splitWs [] = [] := rfl

/-! ## C10 -/

lemma asciiDecode_filter (raw : List Nat) :
    asciiDecode (raw.filter (fun b => b < 128)) = asciiDecode raw := by
  unfold asciiDecode
  rw [List.filter_filter]
  congr 1
  apply List.filter_congr
  intro b _
  simp

/-- C10: `parse_pm100_line` treats a byte string exactly as the same
byte string with all non-ASCII bytes (≥ 0x80) deleted — the input is
ASCII-decoded with errors ignored before tokenizing — and a frame with
a non-ASCII noise byte decodes exactly as the frame without it (the
decoder itself is a total function over arbitrary byte lists by
construction). -/
theorem c10_nonascii_ignored :
    (∀ raw : List Nat,
      parse_pm100_line raw = parse_pm100_line (raw.filter (fun b => b < 128))) ∧
    parse_pm100_line (255 :: strBytes "0068 00AF") =
      parse_pm100_line (strBytes "0068 00AF") ∧
    parse_pm100_line (255 :: strBytes "0068 00AF") =
      some [("0", 104), ("1", 175)] := by
  refine ⟨fun raw => ?_, by decide, by decide⟩
  have h := asciiDecode_filter raw
  unfold parse_pm100_line parse_pm100_words
  rw [h]

/-! ## C9 -/

/-- C9: a raw line on which the decoder signals "unparseable" produces
no event (in particular no `serial:update`) and leaves every field of
the state unchanged. -/
theorem c9_unparseable_dropped (s : SerialState) (t : ℚ) (raw : List Nat)
    (h : parse_pm100_line raw = Option.none) :
    readLineResult s t raw = (s, []) := by
  unfold readLineResult
  split
  · rfl
  · rw [h]

theorem c9_witness :
    parse_pm100_line (strBytes "garbage") = Option.none ∧
    readLineResult initState 5 (strBytes "garbage") = (initState, []) :=
  ⟨by decide, c9_unparseable_dropped initState 5 (strBytes "garbage") (by decide)⟩

/-! ## Dispatcher claims -/

/-- Shared helper: the `configure` branch with a non-dict payload
raises before touching anything (main.py 249-250). -/
lemma configure_not_dict (strFn : PyVal → String) (intFn : PyVal → Except String Int)
    (data : PyVal) (s : SerialState) (h : data.isDict = false) :
    handle_command strFn intFn (.str "configure") data s =
      ⟨.error "configure payload must be an object", s, false, false⟩ := by
  unfold handle_command
  simp [pyEqStr, h]

/-- C5: `configure` with a non-object payload fails (raises), and the
failed call mutates no field of the connection state (the state in the
result is exactly the input state, and neither side effect fires). -/
theorem c5_configure_non_object (strFn : PyVal → String)
    (intFn : PyVal → Except String Int) (data : PyVal) (s : SerialState)
    (h : data.isDict = false) :
    handle_command strFn intFn (.str "configure") data s =
      ⟨.error "configure payload must be an object", s, false, false⟩ :=
  configure_not_dict strFn intFn data s h

theorem c5_witness :
    handle_command defaultStr defaultInt (.str "configure") (.int 5) initState =
      ⟨.error "configure payload must be an object", initState, false, false⟩ :=
  c5_configure_non_object defaultStr defaultInt (.int 5) initState rfl

/-- C7: any operation name outside start/stop/configure/health is
rejected with a negative acknowledgement (`ok = false`) carrying the
current state snapshot, and the dispatch leaves the state unchanged
and fires no side effect. -/
theorem c7_unknown_op_nack (ev : String)
    (h : ¬ev ∈ ["start", "stop", "configure", "health"])
    (strFn : PyVal → String) (intFn : PyVal → Except String Int)
    (data : PyVal) (s : SerialState) :
    handle_command strFn intFn (.str ev) data s =
      ⟨.ok ⟨false, s.to_health⟩, s, false, false⟩ := by
  have h1 : ¬ev = "start" := fun hh => h (by simp [hh])
  have h2 : ¬ev = "stop" := fun hh => h (by simp [hh])
  have h3 : ¬ev = "configure" := fun hh => h (by simp [hh])
  have h4 : ¬ev = "health" := fun hh => h (by simp [hh])
  unfold handle_command
  simp [pyEqStr, h1, h2, h3, h4]

theorem c7_witness :
    handle_command defaultStr defaultInt (.str "reboot") (.int 5) initState =
      ⟨.ok ⟨false, initState.to_health⟩, initState, false, false⟩ :=
  c7_unknown_op_nack "reboot" (by decide) defaultStr defaultInt (.int 5) initState

/-- C6 evidence (code bug): a `configure` command with a non-object
payload reaches `handle_command`, whose `ValueError` is raised outside
every `try:` block of `handle_message` — the message-handling path
lets it escape as an unhandled exception instead of answering the
request with a failure response. -/
theorem c6_validation_error_escapes (strFn : PyVal → String)
    (intFn : PyVal → Except String Int) (s : SerialState) :
    (handle_message strFn intFn
        (Option.some (.dict [("event", .str "configure"), ("data", .int 5)])) s).outcome =
      HMOutcome.raised "configure payload must be an object" := rfl

/-! ## C8: connected implies no lastError -/

/-- The invariant of the claim: `status == connected → lastError == null`. -/
def connInv (s : SerialState) : Prop :=
  s.status = .connected → s.last_error = Option.none

/-- C8: every reader-loop transition and every dispatcher operation
preserves `status == connected → lastError == null`. -/
theorem c8_connected_no_error :
    (∀ (s : SerialState) (l : Label) (s2 : SerialState),
      ReaderStep s l s2 → connInv s → connInv s2) ∧
    (∀ (strFn : PyVal → String) (intFn : PyVal → Except String Int)
      (ev data : PyVal) (s : SerialState),
      connInv s → connInv (handle_command strFn intFn ev data s).state) := by
  constructor
  · intro s l s2 hstep hinv
    cases hstep with
    | noPort h => intro hc; simp [noPortPost] at hc
    | connecting h => intro hc; simp [connectingPost] at hc
    | connectOk h => intro hc; simp [connectOkPost]
    | readLine t raw h =>
      unfold readLineResult
      split
      · exact hinv
      · split
        · exact hinv
        · intro hc
          simpa using hinv (by simpa using hc)
    | fail msg h => intro hc; simp [failPost] at hc
    | stop => intro hc; simp [stoppedPost] at hc
  · intro strFn intFn ev data s hinv
    unfold handle_command
    split_ifs <;> try exact hinv
    all_goals (split <;> exact hinv)

theorem c8_witness :
    connInv initState ∧ connInv (connectOkPost { initState with status := .connecting }) :=
  ⟨fun h => by simp [initState] at h,
   c8_connected_no_error.1 { initState with status := .connecting }
     _ _ (ReaderStep.connectOk _ rfl)
     (fun h => by simp [initState] at h)⟩

/-! ## C3: backoff behaviour -/

lemma backoffNext_bounds (b : ℚ) (h1 : 1 ≤ b) (h2 : b ≤ 30) :
    1 ≤ backoffNext b ∧ backoffNext b ≤ 30 := by
  unfold backoffNext
  constructor
  · apply le_min _ (by norm_num)
    nlinarith
  · exact min_le_right _ _

lemma backoffNext_30 : backoffNext 30 = 30 := by
  norm_num [backoffNext, min_def]

lemma backoffSeq_9 : backoffSeq 9 = 30 := by
  norm_num [backoffSeq, backoffNext, min_def]

lemma backoffSeq_cap (n : Nat) : backoffSeq (9 + n) = 30 := by
  induction n with
  | zero => exact backoffSeq_9
  | succ n ih =>
    have : 9 + (n + 1) = (9 + n) + 1 := by omega
    rw [this]
    show backoffNext (backoffSeq (9 + n)) = 30
    rw [ih, backoffNext_30]

/-- C3: a failure step sleeps exactly the current backoff and replaces
it by `min(backoff * 1.5, 30)`; every step either keeps the backoff,
resets it to the 1.0 floor, or performs that failure update; the only
step that enters `connected` resets the backoff to 1.0; iterating the
failure update from the floor yields 1.0, 1.5, 2.25, 3.375, …, pinned
at 30.0 from the ninth failure on; and every step preserves
`backoff ∈ [1, 30]`. -/
theorem c3_backoff :
    (∀ (s : SerialState) (msg : String),
      s.status = .connecting ∨ s.status = .connected →
      ∃ (l : Label) (s2 : SerialState), ReaderStep s l s2 ∧
        l.sleep = Option.some s.backoff_seconds ∧
        s2.backoff_seconds = min (s.backoff_seconds * (3 / 2)) 30) ∧
    (∀ (s : SerialState) (l : Label) (s2 : SerialState), ReaderStep s l s2 →
      s2.backoff_seconds = s.backoff_seconds ∨ s2.backoff_seconds = 1 ∨
        (l.sleep = Option.some s.backoff_seconds ∧
         s2.backoff_seconds = backoffNext s.backoff_seconds)) ∧
    (∀ (s : SerialState) (l : Label) (s2 : SerialState), ReaderStep s l s2 →
      ¬s.status = .connected → s2.status = .connected → s2.backoff_seconds = 1) ∧
    backoffSeq 0 = 1 ∧ backoffSeq 1 = 3 / 2 ∧ backoffSeq 2 = 9 / 4 ∧
    backoffSeq 3 = 27 / 8 ∧
    (∀ n : Nat, backoffSeq (9 + n) = 30) ∧
    (∀ (s : SerialState) (l : Label) (s2 : SerialState), ReaderStep s l s2 →
      1 ≤ s.backoff_seconds → s.backoff_seconds ≤ 30 →
      1 ≤ s2.backoff_seconds ∧ s2.backoff_seconds ≤ 30) := by
  refine ⟨?_, ?_, ?_, rfl, ?_, ?_, ?_, backoffSeq_cap, ?_⟩
  · intro s msg h
    exact ⟨_, _, ReaderStep.fail s msg h, rfl, rfl⟩
  · intro s l s2 hstep
    cases hstep with
    | noPort h => exact Or.inl rfl
    | connecting h => exact Or.inl rfl
    | connectOk h => exact Or.inr (Or.inl rfl)
    | readLine t raw h =>
      left
      unfold readLineResult
      split
      · rfl
      · split
        · rfl
        · rfl
    | fail msg h => exact Or.inr (Or.inr ⟨rfl, rfl⟩)
    | stop => exact Or.inl rfl
  · intro s l s2 hstep hpre hpost
    cases hstep with
    | noPort h => simp [noPortPost] at hpost
    | connecting h => simp [connectingPost] at hpost
    | connectOk h => rfl
    | readLine t raw h => exact absurd h hpre
    | fail msg h => simp [failPost] at hpost
    | stop => simp [stoppedPost] at hpost
  · norm_num [backoffSeq, backoffNext, min_def]
  · norm_num [backoffSeq, backoffNext, min_def]
  · norm_num [backoffSeq, backoffNext, min_def]
  · intro s l s2 hstep h1 h2
    cases hstep with
    | noPort h => exact ⟨h1, h2⟩
    | connecting h => exact ⟨h1, h2⟩
    | connectOk h => exact ⟨le_refl 1, by norm_num [connectOkPost]⟩
    | readLine t raw h =>
      unfold readLineResult
      split
      · exact ⟨h1, h2⟩
      · split
        · exact ⟨h1, h2⟩
        · exact ⟨h1, h2⟩
    | fail msg h => exact backoffNext_bounds s.backoff_seconds h1 h2
    | stop => exact ⟨h1, h2⟩

theorem c3_witness :
    (∃ (l : Label) (s2 : SerialState),
      ReaderStep { initState with status := .connecting } l s2 ∧
      l.sleep = Option.some (1 : ℚ) ∧ s2.backoff_seconds = 3 / 2) ∧
    backoffSeq 1 = 3 / 2 := by
  constructor
  · obtain ⟨l, s2, hstep, hsleep, hval⟩ :=
      c3_backoff.1 { initState with status := .connecting } "boom" (Or.inl rfl)
    refine ⟨l, s2, hstep, hsleep, ?_⟩
    rw [hval]
    norm_num [initState, min_def]
  · exact c3_backoff.2.2.2.2.1

/-! ## Decimal keys: `natToString` is injective -/

lemma natOfDigits_append (xs : List Nat) (d : Nat) :
    natOfDigits (xs ++ [d]) = 10 * natOfDigits xs + d := by
  simp [natOfDigits, List.foldl_append]

lemma natDigitsF_spec :
    ∀ fuel n, n ≤ fuel →
      natOfDigits (natDigitsF fuel n) = n ∧ ∀ d ∈ natDigitsF fuel n, d < 10 := by
  intro fuel
  induction fuel with
  | zero =>
    intro n hn
    have : n = 0 := by omega
    subst this
    exact ⟨rfl, by simp [natDigitsF]⟩
  | succ fuel ih =>
    intro n hn
    rw [natDigitsF]
    by_cases h : n < 10
    · simp only [h, if_true]
      refine ⟨?_, by simpa using h⟩
      simp [natOfDigits]
    · simp only [h, if_false]
      have hdiv : n / 10 ≤ fuel := by
        have := Nat.div_lt_self (show 0 < n by omega) (show 1 < 10 by omega)
        omega
      obtain ⟨hval, hdig⟩ := ih (n / 10) hdiv
      constructor
      · rw [natOfDigits_append, hval]
        omega
      · intro d hd
        rcases List.mem_append.mp hd with h2 | h2
        · exact hdig d h2
        · simp at h2
          omega

lemma natOfDigits_natDigits (n : Nat) : natOfDigits (natDigits n) = n :=
  (natDigitsF_spec n n (le_refl n)).1

lemma natDigits_lt10 (n : Nat) : ∀ d ∈ natDigits n, d < 10 :=
  (natDigitsF_spec n n (le_refl n)).2

lemma digitVal_digitChar (d : Nat) (h : d < 10) : digitVal (digitChar d) = d := by
  interval_cases d <;> rfl

lemma map_digitVal_digitChar (ds : List Nat) (h : ∀ d ∈ ds, d < 10) :
    (ds.map digitChar).map digitVal = ds := by
  induction ds with
  | nil => rfl
  | cons d ds ih =>
    simp only [List.map_cons, List.cons.injEq]
    exact ⟨digitVal_digitChar d (h d (by simp)),
      ih (fun e he => h e (by simp [he]))⟩

lemma natToString_inj : Function.Injective natToString := by
  intro m n h
  have hdata : (natDigits m).map digitChar = (natDigits n).map digitChar :=
    congrArg String.data h
  have h2 : ((natDigits m).map digitChar).map digitVal =
      ((natDigits n).map digitChar).map digitVal := congrArg _ hdata
  rw [map_digitVal_digitChar _ (natDigits_lt10 m),
      map_digitVal_digitChar _ (natDigits_lt10 n)] at h2
  have := congrArg natOfDigits h2
  rwa [natOfDigits_natDigits, natOfDigits_natDigits] at this

/-! ## Values map: keys and values -/

lemma valuesFrom_keys :
    ∀ (ws : List Int) (i : Nat),
      (valuesFrom i ws).map Prod.fst = (List.range' i ws.length).map natToString := by
  intro ws
  induction ws with
  | nil => intro i; rfl
  | cons w ws ih =>
    intro i
    simp only [valuesFrom, List.map_cons, List.length_cons, List.range'_succ]
    rw [ih (i + 1)]

lemma valuesFrom_mem_val :
    ∀ (ws : List Int) (i : Nat) (kw : String × Int),
      kw ∈ valuesFrom i ws → kw.2 ∈ ws := by
  intro ws
  induction ws with
  | nil => intro i kw h; simp [valuesFrom] at h
  | cons w ws ih =>
    intro i kw h
    simp only [valuesFrom, List.mem_cons] at h
    rcases h with h | h
    · subst h; simp
    · simp [ih (i + 1) kw h]

lemma valuesMap_keys (ws : List Int) :
    (valuesMap ws).map Prod.fst = (List.range ws.length).map natToString := by
  rw [valuesMap, valuesFrom_keys, List.range_eq_range']

/-! ## Hex tokens -/

lemma hex_not_space (c : Char) (h : isHexDigit c = true) : isPySpace c = false := by
  by_contra hc
  have hsp : isPySpace c = true := by
    cases hb : isPySpace c
    · exact absurd hb hc
    · rfl
  unfold isPySpace at hsp
  simp only [Bool.or_eq_true, decide_eq_true_eq] at hsp
  rcases hsp with ((((((((h1 | h1) | h1) | h1) | h1) | h1) | h1) | h1) | h1) | h1 <;>
    subst h1 <;> exact absurd h (by decide)

lemma hexVal_lt (c : Char) (d : Nat) (h : hexVal c = some d) : d < 16 := by
  unfold hexVal at h
  split_ifs at h with h1 h2 h3
  · simp only [Bool.and_eq_true, decide_eq_true_eq] at h1
    simp only [Option.some.injEq] at h
    omega
  · simp only [Bool.and_eq_true, decide_eq_true_eq] at h2
    simp only [Option.some.injEq] at h
    omega
  · simp only [Bool.and_eq_true, decide_eq_true_eq] at h3
    simp only [Option.some.injEq] at h
    omega

lemma underscore_not_hex : isHexDigit '_' = false := by decide

lemma plus_not_hex : isHexDigit '+' = false := by decide

lemma dash_not_hex : isHexDigit '-' = false := by decide

lemma x_not_hex : isHexDigit 'x' = false := by decide

lemma bigX_not_hex : isHexDigit 'X' = false := by decide

lemma isHexDigit_some (c : Char) (h : isHexDigit c = true) :
    ∃ d, hexVal c = some d ∧ d < 16 := by
  unfold isHexDigit at h
  obtain ⟨d, hd⟩ := Option.isSome_iff_exists.mp h
  exact ⟨d, hd, hexVal_lt c d hd⟩

lemma hexCont_hex :
    ∀ (l : List Char) (acc : Nat), (∀ c ∈ l, isHexDigit c = true) →
      ∃ m, hexCont acc l = some m ∧ m < (acc + 1) * 16 ^ l.length := by
  intro l
  induction l with
  | nil => intro acc _; exact ⟨acc, rfl, by simp⟩
  | cons c cs ih =>
    intro acc hall
    have hc : isHexDigit c = true := hall c (by simp)
    have hne : ¬c = '_' := by
      intro hh; subst hh; rw [underscore_not_hex] at hc; exact absurd hc (by simp)
    obtain ⟨d, hd, hdlt⟩ := isHexDigit_some c hc
    obtain ⟨m, hm, hmlt⟩ := ih (16 * acc + d) (fun e he => hall e (by simp [he]))
    refine ⟨m, ?_, ?_⟩
    · unfold hexCont
      simp only [hne, if_false, hd]
      exact hm
    · calc m < (16 * acc + d + 1) * 16 ^ cs.length := hmlt
        _ ≤ (16 * (acc + 1)) * 16 ^ cs.length := by
            apply Nat.mul_le_mul_right
            omega
        _ = (acc + 1) * 16 ^ (c :: cs).length := by
            simp [List.length_cons, Nat.pow_succ]
            ring

lemma hexBody_hex (l : List Char) (hne : ¬l = [])
    (hall : ∀ c ∈ l, isHexDigit c = true) :
    ∃ m, hexBody l = some m ∧ m < 16 ^ l.length := by
  cases l with
  | nil => exact absurd rfl hne
  | cons c cs =>
    obtain ⟨d, hd, hdlt⟩ := isHexDigit_some c (hall c (by simp))
    obtain ⟨m, hm, hmlt⟩ := hexCont_hex cs d (fun e he => hall e (by simp [he]))
    refine ⟨m, ?_, ?_⟩
    · simp only [hexBody, hd]
      exact hm
    · calc m < (d + 1) * 16 ^ cs.length := hmlt
        _ ≤ 16 * 16 ^ cs.length := by
            apply Nat.mul_le_mul_right
            omega
        _ = 16 ^ (c :: cs).length := by
            simp [List.length_cons, Nat.pow_succ]
            ring

lemma parseToken_hex4 (t : List Char) (hlen : t.length = 4)
    (hall : ∀ c ∈ t, isHexDigit c = true) :
    ∃ m : Nat, parseToken t = some (m : Int) ∧ m < 65536 := by
  have hnospace : ∀ c ∈ t, isPySpace c = false :=
    fun c hc => hex_not_space c (hall c hc)
  have hstrip : strip t = t := strip_of_no_space t hnospace
  obtain ⟨a, b, c2, d2, ht⟩ : ∃ a b c2 d2, t = [a, b, c2, d2] := by
    cases t with
    | nil => simp at hlen
    | cons a r1 =>
      cases r1 with
      | nil => simp at hlen
      | cons b r2 =>
        cases r2 with
        | nil => simp at hlen
        | cons c2 r3 =>
          cases r3 with
          | nil => simp at hlen
          | cons d2 r4 =>
            cases r4 with
            | nil => exact ⟨a, b, c2, d2, rfl⟩
            | cons e r5 => simp at hlen
  subst ht
  have ha : isHexDigit a = true := hall a (by simp)
  have hb : isHexDigit b = true := hall b (by simp)
  have hna : ¬a = '+' := by
    intro hh; subst hh; rw [plus_not_hex] at ha; exact absurd ha (by simp)
  have hnb : ¬a = '-' := by
    intro hh; subst hh; rw [dash_not_hex] at ha; exact absurd ha (by simp)
  have hbx : (a = '0' && (b = 'x' || b = 'X')) = false := by
    cases hxx : (b = 'x' || b = 'X')
    · simp
    · exfalso
      simp only [Bool.or_eq_true, decide_eq_true_eq] at hxx
      rcases hxx with h1 | h1 <;> subst h1
      · rw [x_not_hex] at hb; exact absurd hb (by simp)
      · rw [bigX_not_hex] at hb; exact absurd hb (by simp)
  obtain ⟨m, hm, hmlt⟩ :=
    hexBody_hex [a, b, c2, d2] (by simp) hall
  have hmlt2 : m < 65536 := by
    have h16 : (16 : Nat) ^ ([a, b, c2, d2] : List Char).length = 65536 := by norm_num
    omega
  refine ⟨m, ?_, hmlt2⟩
  unfold parseToken
  rw [hstrip]
  have hl1 : ¬([a, b, c2, d2] : List Char).length < 4 := by simp
  have hl2 : ¬([a, b, c2, d2] : List Char).length > 4 := by simp
  rw [if_neg hl1, if_neg hl2]
  simp only [pyIntBase16, hstrip]
  rw [if_neg hna, if_neg hnb]
  simp only [hexUnsigned]
  rw [hbx]
  simp [hm]

lemma parseWords_all (tokens : List (List Char))
    (hall : ∀ t ∈ tokens, t.length = 4 ∧ ∀ c ∈ t, isHexDigit c = true) :
    ∃ ws, parseWords tokens = some ws ∧ ws.length = tokens.length ∧
      ∀ w ∈ ws, 0 ≤ w ∧ w ≤ 65535 := by
  induction tokens with
  | nil => exact ⟨[], rfl, rfl, by simp⟩
  | cons t ts ih =>
    obtain ⟨hlen, hhex⟩ := hall t (by simp)
    obtain ⟨m, hm, hmlt⟩ := parseToken_hex4 t hlen hhex
    obtain ⟨ws, hws, hwlen, hwbound⟩ := ih (fun u hu => hall u (by simp [hu]))
    refine ⟨(m : Int) :: ws, ?_, by simp [hwlen], ?_⟩
    · unfold parseWords
      rw [hm, hws]
    · intro w hw
      rcases List.mem_cons.mp hw with h | h
      · subst h
        constructor
        · positivity
        · exact_mod_cast Nat.lt_succ_iff.mp (by omega)
      · exact hwbound w h

lemma parseWords_none (tokens : List (List Char)) (t : List Char)
    (hmem : t ∈ tokens) (hnone : parseToken t = Option.none) :
    parseWords tokens = Option.none := by
  induction tokens with
  | nil => simp at hmem
  | cons p ps ih =>
    rcases List.mem_cons.mp hmem with h | h
    · subst h
      unfold parseWords
      rw [hnone]
    · unfold parseWords
      cases hp : parseToken p
      · rfl
      · rw [ih h]

/-! ## C2: 4-hex-char token lines -/

/-- C2: a line whose whitespace tokenization consists of n ≥ 1 tokens
of 4 hex characters each decodes to a values map whose key list is
exactly `str(0), …, str(n-1)` in that order (so insertion order equals
numeric index order and keys are unique), every value lying in
`[0, 65535]`. -/
theorem c2_hex_words (raw : List Nat) (tokens : List (List Char))
    (hsplit : splitWs (strip (asciiDecode raw)) = tokens)
    (hne : ¬tokens = [])
    (hall : ∀ t ∈ tokens, t.length = 4 ∧ ∀ c ∈ t, isHexDigit c = true) :
    ∃ vm, parse_pm100_line raw = some vm ∧
      vm.map Prod.fst = (List.range tokens.length).map natToString ∧
      (vm.map Prod.fst).Nodup ∧
      ∀ kw ∈ vm, 0 ≤ kw.2 ∧ kw.2 ≤ 65535 := by
  have htext : ¬strip (asciiDecode raw) = [] := by
    intro h
    rw [h, splitWs_nil] at hsplit
    exact hne hsplit.symm
  obtain ⟨ws, hws, hwlen, hwbound⟩ := parseWords_all tokens hall
  have hall1 : tokens.all (fun p => p.length = 1) = false := by
    cases tokens with
    | nil => exact absurd rfl hne
    | cons t ts =>
      have h4 := (hall t (by simp)).1
      simp [List.all_cons, h4]
  refine ⟨valuesMap ws, ?_, ?_, ?_, ?_⟩
  · unfold parse_pm100_line parse_pm100_words
    simp only [hsplit]
    rw [if_neg htext, if_neg hne, hall1]
    simp only [Bool.false_eq_true, if_false, hws]
    rfl
  · rw [valuesMap_keys, hwlen]
  · rw [valuesMap_keys]
    exact (List.nodup_range _).map natToString_inj
  · intro kw hkw
    exact hwbound kw.2 (valuesFrom_mem_val ws 0 kw hkw)

theorem c2_witness :
    ∃ vm, parse_pm100_line (strBytes "0068 00AF") = some vm ∧
      vm.map Prod.fst = (List.range 2).map natToString ∧
      (vm.map Prod.fst).Nodup ∧
      ∀ kw ∈ vm, 0 ≤ kw.2 ∧ kw.2 ≤ 65535 :=
  c2_hex_words (strBytes "0068 00AF") [['0', '0', '6', '8'], ['0', '0', 'A', 'F']]
    (by decide) (by decide) (by decide)

/-! ## C4: token shapes -/

/-- C4: lines of single-character tokens are regrouped four at a time
(`"0 0 6 8"` decodes exactly like `"0068"`, to the one word 104, and a
single-character token count not divisible by 4 kills the line, e.g.
`"0 0 6"`); in a line not made of single-character tokens, any token
shorter than 4 characters kills the whole line (e.g. `"06"`), while a
token longer than 4 characters is truncated to its trailing 4
characters before being parsed as a word (`"A0068"` decodes as
0x0068 = 104). -/
theorem c4_token_shapes :
    parse_pm100_line (strBytes "0 0 6 8") = parse_pm100_line (strBytes "0068") ∧
    parse_pm100_line (strBytes "0068") = some [("0", 104)] ∧
    parse_pm100_line (strBytes "0 0 6") = Option.none ∧
    (∀ (raw : List Nat) (tokens : List (List Char)),
      splitWs (strip (asciiDecode raw)) = tokens →
      (∀ t ∈ tokens, t.length = 1) → ¬tokens.length % 4 = 0 →
      parse_pm100_line raw = Option.none) ∧
    (∀ (raw : List Nat) (tokens : List (List Char)),
      splitWs (strip (asciiDecode raw)) = tokens →
      ¬(∀ t ∈ tokens, t.length = 1) →
      (∃ t ∈ tokens, t.length < 4) →
      parse_pm100_line raw = Option.none) ∧
    (∀ t : List Char, (∀ c ∈ t, isPySpace c = false) → 4 < t.length →
      parseToken t = pyIntBase16 (t.drop (t.length - 4))) ∧
    parse_pm100_line (strBytes "A0068") = some [("0", 104)] ∧
    parse_pm100_line (strBytes "06") = Option.none := by
  refine ⟨by decide, by decide, by decide, ?_, ?_, ?_, by decide, by decide⟩
  · intro raw tokens hsplit hlen1 hmod
    by_cases hne : tokens = []
    · subst hne
      simp at hmod
    have htext : ¬strip (asciiDecode raw) = [] := by
      intro h
      rw [h, splitWs_nil] at hsplit
      exact hne hsplit.symm
    have hall1 : tokens.all (fun p => p.length = 1) = true := by
      rw [List.all_eq_true]
      intro t ht
      simp [hlen1 t ht]
    unfold parse_pm100_line parse_pm100_words
    simp only [hsplit]
    rw [if_neg htext, if_neg hne, hall1]
    rw [if_pos rfl, if_pos hmod]
    rfl
  · intro raw tokens hsplit hnall hshort
    by_cases hne : tokens = []
    · subst hne
      exact absurd (by simp) hnall
    have htext : ¬strip (asciiDecode raw) = [] := by
      intro h
      rw [h, splitWs_nil] at hsplit
      exact hne hsplit.symm
    have hall1 : tokens.all (fun p => p.length = 1) = false := by
      by_contra hc
      have : tokens.all (fun p => p.length = 1) = true := by
        cases hb : tokens.all (fun p => p.length = 1)
        · exact absurd hb hc
        · rfl
      rw [List.all_eq_true] at this
      exact hnall (fun t ht => by simpa using this t ht)
    obtain ⟨t, hmem, hlt⟩ := hshort
    have hclean : ∀ c ∈ t, isPySpace c = false := by
      intro c hc
      have hmem2 : t ∈ splitWs (strip (asciiDecode raw)) := by rw [hsplit]; exact hmem
      exact splitWs_clean _ t hmem2 c hc
    have htok : parseToken t = Option.none := by
      unfold parseToken
      rw [strip_of_no_space t hclean, if_pos hlt]
    have hwords := parseWords_none tokens t hmem htok
    unfold parse_pm100_line parse_pm100_words
    simp only [hsplit]
    rw [if_neg htext, if_neg hne, hall1]
    simp only [Bool.false_eq_true, if_false, hwords]
    rfl
  · intro t hclean hlen
    unfold parseToken
    rw [strip_of_no_space t hclean, if_neg (by omega), if_pos (by omega)]

theorem c4_witness :
    parse_pm100_line (strBytes "0 0 6 8 0") = Option.none ∧
    parse_pm100_line (strBytes "06 0068") = Option.none ∧
    parseToken ("A0068".data) = pyIntBase16 ("0068".data) := by
  refine ⟨?_, ?_, ?_⟩
  · exact c4_token_shapes.2.2.2.1 (strBytes "0 0 6 8 0")
      [['0'], ['0'], ['6'], ['8'], ['0']] (by decide) (by decide) (by decide)
  · exact c4_token_shapes.2.2.2.2.1 (strBytes "06 0068")
      [['0', '6'], ['0', '0', '6', '8']] (by decide) (by decide)
      ⟨['0', '6'], by decide, by decide⟩
  · have h := c4_token_shapes.2.2.2.2.2.1 ("A0068".data) (by decide) (by decide)
    exact h

/-! ## C1: key-value decoding and round-trip -/

lemma takeWhile_append_all {p : Char → Bool} :
    ∀ (xs ys : List Char), (∀ c ∈ xs, p c = true) →
      (xs ++ ys).takeWhile p = xs ++ ys.takeWhile p := by
  intro xs ys h
  induction xs with
  | nil => rfl
  | cons c cs ih =>
    simp only [List.cons_append, List.takeWhile_cons, h c (by simp), if_true]
    rw [ih (fun e he => h e (by simp [he]))]

lemma dropWhile_append_all {p : Char → Bool} :
    ∀ (xs ys : List Char), (∀ c ∈ xs, p c = true) →
      (xs ++ ys).dropWhile p = ys.dropWhile p := by
  intro xs ys h
  induction xs with
  | nil => rfl
  | cons c cs ih =>
    simp only [List.cons_append, List.dropWhile_cons, h c (by simp), if_true]
    exact ih (fun e he => h e (by simp [he]))

lemma digitVal_lt10 (c : Char) (h : isDigit c = true) : digitVal c < 10 := by
  unfold isDigit at h
  simp only [Bool.and_eq_true, decide_eq_true_eq] at h
  unfold digitVal
  omega

lemma isDigit_digitChar (d : Nat) (h : d < 10) : isDigit (digitChar d) = true := by
  interval_cases d <;> decide

lemma digitChar_not_dash (d : Nat) : ¬digitChar d = '-' := by
  unfold digitChar
  split <;> decide

lemma digitChar_not_plus (d : Nat) : ¬digitChar d = '+' := by
  unfold digitChar
  split <;> decide

lemma map_digitVal_lt10 (cs : List Char) (hcs : ∀ c ∈ cs, isDigit c = true) :
    ∀ d ∈ cs.map digitVal, d < 10 := by
  intro d hd
  simp only [List.mem_map] at hd
  obtain ⟨c, hc, hcv⟩ := hd
  subst hcv
  exact digitVal_lt10 c (hcs c hc)

lemma parseFloat_valid (l : List Char) (r : FloatRep)
    (h : parseFloat l = some r) :
    (∀ d ∈ r.ip, d < 10) ∧ (∀ d ∈ r.fp, d < 10) := by
  simp only [parseFloat] at h
  split at h
  · split_ifs at h
    simp only [Option.some.injEq] at h
    subst h
    refine ⟨?_, by simp⟩
    exact map_digitVal_lt10 _ (fun c hc => List.mem_takeWhile_imp hc)
  · split_ifs at h
    simp only [Option.some.injEq] at h
    subst h
    exact ⟨map_digitVal_lt10 _ (fun c hc => List.mem_takeWhile_imp hc),
      map_digitVal_lt10 _ (fun c hc => List.mem_takeWhile_imp hc)⟩
  · exact absurd h (by simp)

lemma splitFirstSep_append :
    ∀ (idCs rest : List Char) (sep : Char), isSep sep = true →
      (∀ c ∈ idCs, isSep c = false) →
      splitFirstSep (idCs ++ sep :: rest) = some (idCs, rest) := by
  intro idCs rest sep hsep hid
  induction idCs with
  | nil =>
    unfold splitFirstSep
    simp [hsep]
  | cons c cs ih =>
    have hc : isSep c = false := hid c (by simp)
    have ihh := ih (fun e he => hid e (by simp [he]))
    unfold splitFirstSep
    simp only [List.cons_append, hc, Bool.false_eq_true, if_false]
    rw [ihh]

/-- The character list printed for the integer part (padded with a
single `0` when empty). -/
def ipChars (r : FloatRep) : List Char :=
  if r.ip = [] then [digitChar 0] else r.ip.map digitChar

/-- The character list printed for the fractional part. -/
def fpChars (r : FloatRep) : List Char :=
  if r.fp = [] then [] else '.' :: r.fp.map digitChar

lemma floatRepr_eq (r : FloatRep) :
    floatRepr r = (if r.neg then ['-'] else []) ++ ipChars r ++ fpChars r := rfl

lemma ipChars_ne_nil (r : FloatRep) : ¬ipChars r = [] := by
  unfold ipChars
  split
  · simp
  · rename_i h
    simpa using h

lemma ipChars_digits (r : FloatRep) (h : ∀ d ∈ r.ip, d < 10) :
    ∀ c ∈ ipChars r, isDigit c = true := by
  unfold ipChars
  split
  · intro c hc
    simp at hc
    subst hc
    decide
  · intro c hc
    simp only [List.mem_map] at hc
    obtain ⟨d, hd, hdc⟩ := hc
    subst hdc
    exact isDigit_digitChar d (h d hd)

lemma ipChars_head_not_sign (r : FloatRep) (c : Char) (cs : List Char)
    (h : ipChars r = c :: cs) : ¬c = '-' ∧ ¬c = '+' := by
  unfold ipChars at h
  split at h
  · simp only [List.cons.injEq] at h
    obtain ⟨h1, _⟩ := h
    subst h1
    exact ⟨by decide, by decide⟩
  · cases hip : r.ip with
    | nil => simp [hip] at h
    | cons d ds =>
      rw [hip] at h
      simp only [List.map_cons, List.cons.injEq] at h
      obtain ⟨h1, _⟩ := h
      subst h1
      exact ⟨digitChar_not_dash d, digitChar_not_plus d⟩

lemma parseSign_floatRepr (r : FloatRep) :
    parseSign (floatRepr r) = (r.neg, ipChars r ++ fpChars r) := by
  obtain ⟨c, cs, hcs⟩ : ∃ c cs, ipChars r = c :: cs := by
    cases h : ipChars r with
    | nil => exact absurd h (ipChars_ne_nil r)
    | cons c cs => exact ⟨c, cs, rfl⟩
  obtain ⟨hnd, hnp⟩ := ipChars_head_not_sign r c cs hcs
  rw [floatRepr_eq]
  cases hneg : r.neg
  · simp only [hneg, Bool.false_eq_true, if_false, List.nil_append, hcs,
      List.cons_append]
    simp only [parseSign]
    rw [if_neg hnd, if_neg hnp]
  · simp only [hneg, if_true, List.cons_append]
    simp only [parseSign]
    simp

lemma fval_pad (neg : Bool) (ip fp : List Nat) :
    fval ⟨neg, if ip = [] then [0] else ip, fp⟩ = fval ⟨neg, ip, fp⟩ := by
  split
  · rename_i h
    subst h
    simp [fval, natOfDigits]
  · rfl

lemma parseFloat_floatRepr (r : FloatRep)
    (hip : ∀ d ∈ r.ip, d < 10) (hfp : ∀ d ∈ r.fp, d < 10) :
    parseFloat (floatRepr r) =
      some ⟨r.neg, if r.ip = [] then [0] else r.ip, r.fp⟩ := by
  have hdig := ipChars_digits r hip
  have hmapip : (ipChars r).map digitVal = if r.ip = [] then [0] else r.ip := by
    unfold ipChars
    split
    · rfl
    · exact map_digitVal_digitChar r.ip hip
  unfold parseFloat
  rw [parseSign_floatRepr]
  dsimp only
  cases hfpe : r.fp with
  | nil =>
    have hfpc : fpChars r = [] := by unfold fpChars; rw [hfpe]; rfl
    rw [hfpc, List.append_nil]
    rw [List.takeWhile_eq_self_iff.mpr hdig, List.dropWhile_eq_nil_iff.mpr
      (fun c hc => hdig c hc)]
    rw [if_neg (ipChars_ne_nil r), hmapip]
  | cons d ds =>
    have hfpc : fpChars r = '.' :: r.fp.map digitChar := by
      unfold fpChars
      rw [if_neg (by rw [hfpe]; simp)]
    rw [hfpc]
    rw [takeWhile_append_all _ _ hdig, dropWhile_append_all _ _ hdig]
    have hdot : isDigit '.' = false := by decide
    rw [List.takeWhile_cons, hdot]
    simp only [Bool.false_eq_true, if_false]
    rw [List.append_nil, List.dropWhile_cons, hdot]
    simp only [Bool.false_eq_true, if_false]
    have hfdig : ∀ c ∈ r.fp.map digitChar, isDigit c = true := by
      intro c hc
      simp only [List.mem_map] at hc
      obtain ⟨e, he, hec⟩ := hc
      subst hec
      exact isDigit_digitChar e (hfp e he)
    rw [List.takeWhile_eq_self_iff.mpr hfdig, List.dropWhile_eq_nil_iff.mpr
      (fun c hc => hfdig c hc)]
    rw [if_pos rfl]
    rw [if_neg (by simp [ipChars_ne_nil r])]
    rw [hmapip, map_digitVal_digitChar r.fp hfp, hfpe]

/-- C1 (spec-modelled): a valid key-value line `<id><sep><value>` —
separator `:` or `,`, first occurrence splitting the line into exactly
two parts, value a floating-point literal — decodes to the Sample pair
`{id, value}`, and re-serializing that pair produces a line that
decodes to the same id with a numerically equal value (the round-trip
is exact on the modelled rationals, hence within any floating-point
tolerance). -/
theorem c1_kv_roundtrip (idCs valCs : List Char) (sep : Char) (r : FloatRep)
    (hsep : isSep sep = true)
    (hid : ∀ c ∈ idCs, isSep c = false)
    (hval : parseFloat valCs = some r) :
    parse_kv_line (idCs ++ sep :: valCs) = some (String.mk idCs, r) ∧
    ∃ r2, parse_kv_line (serializeKV (String.mk idCs) r) =
        some (String.mk idCs, r2) ∧ fval r2 = fval r := by
  have hvalid := parseFloat_valid valCs r hval
  constructor
  · unfold parse_kv_line
    rw [splitFirstSep_append idCs valCs sep hsep hid]
    dsimp only
    rw [hval]
  · refine ⟨⟨r.neg, if r.ip = [] then [0] else r.ip, r.fp⟩, ?_, ?_⟩
    · unfold parse_kv_line serializeKV
      rw [show (String.mk idCs).data = idCs from rfl]
      rw [splitFirstSep_append idCs (floatRepr r) ':' (by decide) hid]
      dsimp only
      rw [parseFloat_floatRepr r hvalid.1 hvalid.2]
    · exact fval_pad r.neg r.ip r.fp

theorem c1_witness :
    parse_kv_line (['t'] ++ ':' :: ['3', '.', '5']) =
      some (String.mk ['t'], ⟨false, [3], [5]⟩) ∧
    ∃ r2, parse_kv_line (serializeKV (String.mk ['t']) ⟨false, [3], [5]⟩) =
        some (String.mk ['t'], r2) ∧ fval r2 = fval ⟨false, [3], [5]⟩ :=
  c1_kv_roundtrip ['t'] ['3', '.', '5'] ':' ⟨false, [3], [5]⟩
    (by decide) (by decide) (by decide)

end SerialBridge
